import Mathlib

/-!
# Nearest-neighbour tour construction (`src/computeDubinsDistancesATSP.cpp`)

A shallow embedding of `solveETSPNearestNeighbor` and of the few library
operations it calls.  The C++ `double` is an arbitrary type `R` carrying the
operations the code uses (`+`, `-`, `*`, `0` and a square root); no algebraic
law is assumed unless a theorem says so.  Where a statement is about the value
of the straight-line distance, `double` is read as the real numbers with
`Real.sqrt`.  The `while` loop is run with fuel.
-/

namespace DPPL

/-- A graph node, identified by its index (OGDF `node`). -/
abbrev node := Nat

/-- OGDF `DPoint`: the two coordinates `m_x`, `m_y`. -/
structure DPoint (R : Type) where
  m_x : R
  m_y : R
deriving DecidableEq

/-- The type `configuration_t` used by `main` and `solveETSPNearestNeighbor`
(lines 80-83, 115, 130-131, 135): a `position` and a `heading`. -/
structure configuration_t (R : Type) where
  position : DPoint R
  heading : R
deriving DecidableEq

/-- OGDF `Graph`, reduced to what the solver reads: its list of nodes. -/
structure Graph where
  nodes : List node
deriving DecidableEq

/-- OGDF `GraphAttributes`, reduced to what the solver reads: `GA.x(v)` and
`GA.y(v)`.  There is no per-node heading attribute. -/
structure GraphAttributes (R : Type) where
  x : node → R
  y : node → R

/-- OGDF `GraphCopy`: the nodes of the copy and the map `m_vOrig` from a copy
node to its original. -/
structure GraphCopy where
  nodes : List node
  vOrig : node → node

/-- Modelled from the spec: the constructor `GraphCopy GC(G)` (OGDF, not under
src/) populates the working copy "with every node exactly once"; the copy nodes
are numbered `0 .. n-1` in the order of the nodes of `G`, each mapped to its
original. -/
def GraphCopy.init (G : Graph) : GraphCopy :=
  { nodes := List.range G.nodes.length
    vOrig := fun i => G.nodes.getD i 0 }

/-- Modelled from the spec: `GC.empty()` (OGDF, not under src/), the `isEmpty`
query of the candidate set. -/
def GraphCopy.empty (GC : GraphCopy) : Bool :=
  GC.nodes.isEmpty

/-- Modelled from the spec: `GC.original(vC)` (OGDF, not under src/), the
original node a copy node stands for. -/
def GraphCopy.original (GC : GraphCopy) (vC : node) : node :=
  GC.vOrig vC

/-- Modelled from the spec: `GC.delNode(vC)` (OGDF, not under src/), the
`remove` operation of the candidate set. -/
def GraphCopy.delNode (GC : GraphCopy) (vC : node) : GraphCopy :=
  { nodes := GC.nodes.erase vC
    vOrig := GC.vOrig }

/-- Modelled from the spec: `copyConfiguration(src, dst)` (declared in `Util.h`,
not under src/) makes `dst` a copy of `src`; the value returned here is the new
content of `dst`. -/
def copyConfiguration {R : Type} (src : configuration_t R) : configuration_t R :=
  { position := { m_x := src.position.m_x, m_y := src.position.m_y }
    heading := src.heading }

/-- Modelled from the spec: `DPoint::distance` (OGDF, not under src/), the
"straight-line planar distance" of spec section 9:
`dx = p.m_x - m_x; dy = p.m_y - m_y; sqrt(dx*dx + dy*dy)`. -/
def DPoint.distance {R : Type} [Add R] [Sub R] [Mul R] (sqrt : R → R)
    (self p : DPoint R) : R :=
  let dx := p.m_x - self.m_x
  let dy := p.m_y - self.m_y
  sqrt ((dx * dx) + (dy * dy))

/-- The type of `findNearestNode(GC, GA, C, vC)` (declared in `Util.h`, not under
src/): it reads the remaining copy, the attributes and the current pose, and
gives back the chosen copy node `vC` together with the returned cost. -/
abbrev NearestNodeFn (R : Type) :=
  GraphCopy → GraphAttributes R → configuration_t R → node × R

/-- The local variables of `solveETSPNearestNeighbor` that the loop changes
(lines 112-116) plus the output parameter `tour`. -/
structure LoopState (R : Type) where
  minCost : R
  GC : GraphCopy
  C : configuration_t R
  tour : List node

/-- One pass through the body of the `while` loop, lines 123-131. -/
def loopBody {R : Type} [Add R] (findNearestNode : NearestNodeFn R)
    (GA : GraphAttributes R) (s : LoopState R) : LoopState R :=
  let r := findNearestNode s.GC GA s.C
  let vC := r.1
  let v := s.GC.original vC
  { minCost := s.minCost + r.2
    GC := s.GC.delNode vC
    C := { position := { m_x := GA.x v, m_y := GA.y v }, heading := s.C.heading }
    tour := s.tour ++ [v] }

/-- The loop `while (!GC.empty()) { ... }` of lines 122-132, run with fuel:
`none` when the fuel is used up before the copy is empty. -/
def whileLoop {R : Type} [Add R] (findNearestNode : NearestNodeFn R)
    (GA : GraphAttributes R) : Nat → LoopState R → Option (LoopState R)
  | fuel, s =>
    if s.GC.empty then some s
    else
      match fuel with
      | 0 => none
      | fuel + 1 => whileLoop findNearestNode GA fuel (loopBody findNearestNode GA s)

/-- The state on entry of the loop, lines 112-116. -/
def initialState {R : Type} [Zero R] (G : Graph) (C_start : configuration_t R)
    (tour : List node) : LoopState R :=
  { minCost := 0
    GC := GraphCopy.init G
    C := copyConfiguration C_start
    tour := tour }

/-- The amount added after the loop, line 135:
`C.position.distance(C_end.position)`. -/
def closingLeg {R : Type} [Add R] [Sub R] [Mul R] (sqrt : R → R)
    (C C_end : configuration_t R) : R :=
  C.position.distance sqrt C_end.position

/-- The function `solveETSPNearestNeighbor` (lines 111-138): the returned cost
and the content of the list `tour` on return. -/
def solveETSPNearestNeighbor {R : Type} [Add R] [Sub R] [Mul R] [Zero R]
    (sqrt : R → R) (findNearestNode : NearestNodeFn R) (fuel : Nat)
    (G : Graph) (GA : GraphAttributes R) (C_start C_end : configuration_t R)
    (tour : List node) : Option (R × List node) :=
  match whileLoop findNearestNode GA fuel (initialState G C_start tour) with
  | none => none
  | some s => some (s.minCost + closingLeg sqrt s.C C_end, s.tour)

/-- The state after `k` passes through the loop body. -/
def stateAfter {R : Type} [Add R] [Zero R] (findNearestNode : NearestNodeFn R)
    (G : Graph) (GA : GraphAttributes R) (C_start : configuration_t R)
    (tour : List node) (k : Nat) : LoopState R :=
  (loopBody findNearestNode GA)^[k] (initialState G C_start tour)

/-- The copy node chosen in pass `j` when the loop is entered in state `s`. -/
def chosen {R : Type} [Add R] (fnn : NearestNodeFn R) (GA : GraphAttributes R) (s : LoopState R)
    (j : Nat) : node :=
  (fnn ((loopBody fnn GA)^[j] s).GC GA ((loopBody fnn GA)^[j] s).C).1

/-- The cost returned in pass `j` when the loop is entered in state `s`. -/
def returned {R : Type} [Add R] (fnn : NearestNodeFn R) (GA : GraphAttributes R) (s : LoopState R)
    (j : Nat) : R :=
  (fnn ((loopBody fnn GA)^[j] s).GC GA ((loopBody fnn GA)^[j] s).C).2

/-- The assumption made on `findNearestNode`: on a non-empty copy it gives back
a node of that copy. -/
def ReturnsNodeOfCopy {R : Type} (findNearestNode : NearestNodeFn R)
    (GA : GraphAttributes R) : Prop :=
  ∀ (GC : GraphCopy) (C : configuration_t R),
    GC.nodes ≠ [] → (findNearestNode GC GA C).1 ∈ GC.nodes

/-- The assumption of greedy selection on `findNearestNode`, for a cost `cost C v`
from a pose `C` to a node `v`: on a non-empty copy it gives back a node of that
copy whose original has the least cost from the pose it is given. -/
def ReturnsNearest {R : Type} [LE R] (cost : configuration_t R → node → R)
    (findNearestNode : NearestNodeFn R) (GA : GraphAttributes R) : Prop :=
  ∀ (GC : GraphCopy) (C : configuration_t R),
    GC.nodes ≠ [] →
      (findNearestNode GC GA C).1 ∈ GC.nodes ∧
      ∀ u ∈ GC.nodes,
        cost C (GC.original (findNearestNode GC GA C).1) ≤ cost C (GC.original u)

/-- The current pose before step `i` of a tour, as lines 116 and 130-131 build
it: the start configuration for `i = 0`, otherwise the position of the node at
index `i - 1` of the tour, with the heading the pose had at the start. -/
def poseBefore {R : Type} (GA : GraphAttributes R) (C_start : configuration_t R)
    (tour : List node) : Nat → configuration_t R
  | 0 => C_start
  | i + 1 =>
    { position := { m_x := GA.x (tour.getD i 0), m_y := GA.y (tour.getD i 0) }
      heading := C_start.heading }

/-- The originals of the nodes that remain in the copy after `k` passes. -/
def remaining {R : Type} [Add R] [Zero R] (findNearestNode : NearestNodeFn R)
    (G : Graph) (GA : GraphAttributes R) (C_start : configuration_t R)
    (tour : List node) (k : Nat) : List node :=
  (stateAfter findNearestNode G GA C_start tour k).GC.nodes.map
    (stateAfter findNearestNode G GA C_start tour k).GC.original

/-- The data model of the spec ("exactly one Configuration per Node", a position
and a heading): the configuration of node `v` when the nodes carry the headings
`nodeHeading`.  The code has no such heading; this definition only serves to
state what the spec says about the current pose. -/
def nodeConfiguration {R : Type} (GA : GraphAttributes R) (nodeHeading : node → R)
    (v : node) : configuration_t R :=
  { position := { m_x := GA.x v, m_y := GA.y v }
    heading := nodeHeading v }

/-! ### Sample data

`findNearestNode` is not under src/.  To run the model, the sample below scans
the copy and keeps the first node at least straight-line distance. -/

/-- Straight-line distance from the position of pose `C` to node `v`. -/
def straightLine {R : Type} [Add R] [Sub R] [Mul R] (sqrt : R → R)
    (GA : GraphAttributes R) (C : configuration_t R) (v : node) : R :=
  C.position.distance sqrt { m_x := GA.x v, m_y := GA.y v }

/-- A sample `findNearestNode` over the integers: one scan of the copy, keeping
the first node whose original is at least straight-line distance. -/
def scanNearest (sqrt : ℤ → ℤ) : NearestNodeFn ℤ := fun GC GA C =>
  match GC.nodes with
  | [] => (0, 0)
  | u :: us =>
    us.foldl
      (fun best w =>
        if straightLine sqrt GA C (GC.original w) < best.2
        then (w, straightLine sqrt GA C (GC.original w)) else best)
      (u, straightLine sqrt GA C (GC.original u))

/-- The three nodes of the example of spec section 8. -/
def sampleGraph : Graph := { nodes := [0, 1, 2] }

/-- Their positions: (10, 0), (0, 10) and (-10, 0). -/
def sampleGA : GraphAttributes ℤ :=
  { x := fun v => if v = 0 then 10 else if v = 1 then 0 else -10
    y := fun v => if v = 1 then 10 else 0 }

/-- The start (and end) configuration of `main`, lines 80-84. -/
def sampleStart : configuration_t ℤ :=
  { position := { m_x := 0, m_y := 0 }, heading := 0 }

/-- The current pose before step `i` in the words of the spec ("set
`currentPose := selected node's configuration`"): the start configuration for
`i = 0`, otherwise the configuration, heading included, of the node at index
`i - 1` of the tour. -/
def specPoseBefore {R : Type} (GA : GraphAttributes R) (nodeHeading : node → R)
    (C_start : configuration_t R) (tour : List node) : Nat → configuration_t R
  | 0 => C_start
  | i + 1 => nodeConfiguration GA nodeHeading (tour.getD i 0)

/-- A sample `findNearestNode` over the integers for an arbitrary cost: one scan
of the copy, keeping the first node whose original has the least cost from the
pose it is given. -/
def scanLeast (cost : configuration_t ℤ → node → ℤ) : NearestNodeFn ℤ := fun GC _ C =>
  match GC.nodes with
  | [] => (0, 0)
  | u :: us =>
    us.foldl
      (fun best w =>
        if cost C (GC.original w) < best.2 then (w, cost C (GC.original w)) else best)
      (u, cost C (GC.original u))

/-- A sample cost that depends on the heading of the pose: the squared
straight-line distance to the node, counted positive from a pose of heading 0
and negative from a pose of heading 1. -/
def headingCost (GA : GraphAttributes ℤ) (C : configuration_t ℤ) (v : node) : ℤ :=
  (1 - 2 * C.heading)
    * ((GA.x v - C.position.m_x) * (GA.x v - C.position.m_x)
        + (GA.y v - C.position.m_y) * (GA.y v - C.position.m_y))

/-! ## The loop, pass by pass -/

section Passes

variable {R : Type} [Add R]

theorem whileLoop_of_empty (fnn : NearestNodeFn R) (GA : GraphAttributes R)
    (fuel : Nat) (s : LoopState R) (h : s.GC.nodes = []) :
    whileLoop fnn GA fuel s = some s := by
  unfold whileLoop
  simp [GraphCopy.empty, h]

theorem whileLoop_of_nonempty (fnn : NearestNodeFn R) (GA : GraphAttributes R)
    (fuel : Nat) (s : LoopState R) (h : s.GC.nodes ≠ []) :
    whileLoop fnn GA (fuel + 1) s = whileLoop fnn GA fuel (loopBody fnn GA s) := by
  rw [whileLoop]
  simp [GraphCopy.empty, h]

theorem whileLoop_zero_of_nonempty (fnn : NearestNodeFn R) (GA : GraphAttributes R)
    (s : LoopState R) (h : s.GC.nodes ≠ []) :
    whileLoop fnn GA 0 s = none := by
  rw [whileLoop]
  simp [GraphCopy.empty, h]

/-- If the copy is non-empty before each of the first `k` passes and empty after
them, the loop makes exactly `k` passes: it needs fuel `k` and stops there. -/
theorem whileLoop_eq_iterate (fnn : NearestNodeFn R) (GA : GraphAttributes R) :
    ∀ (k fuel : Nat) (s : LoopState R),
      (∀ j, j < k → ((loopBody fnn GA)^[j] s).GC.nodes ≠ []) →
      ((loopBody fnn GA)^[k] s).GC.nodes = [] →
      whileLoop fnn GA fuel s
        = if k ≤ fuel then some ((loopBody fnn GA)^[k] s) else none := by
  intro k
  induction k with
  | zero =>
    intro fuel s _ hk
    simpa using whileLoop_of_empty fnn GA fuel s hk
  | succ k ih =>
    intro fuel s hlt hk
    have h0 : s.GC.nodes ≠ [] := hlt 0 (Nat.succ_pos k)
    cases fuel with
    | zero => simpa using whileLoop_zero_of_nonempty fnn GA s h0
    | succ fuel =>
      rw [whileLoop_of_nonempty fnn GA fuel s h0,
        ih fuel (loopBody fnn GA s)
          (fun j hj => by
            have := hlt (j + 1) (Nat.succ_lt_succ hj)
            simpa [Function.iterate_succ_apply] using this)
          (by simpa [Function.iterate_succ_apply] using hk)]
      simp [Function.iterate_succ_apply]

theorem vOrig_iterate (fnn : NearestNodeFn R) (GA : GraphAttributes R)
    (s : LoopState R) (k : Nat) :
    ((loopBody fnn GA)^[k] s).GC.vOrig = s.GC.vOrig := by
  induction k with
  | zero => rfl
  | succ k ih =>
    rw [Function.iterate_succ_apply']
    simpa [loopBody, GraphCopy.delNode] using ih

theorem heading_iterate (fnn : NearestNodeFn R) (GA : GraphAttributes R)
    (s : LoopState R) (k : Nat) :
    ((loopBody fnn GA)^[k] s).C.heading = s.C.heading := by
  induction k with
  | zero => rfl
  | succ k ih =>
    rw [Function.iterate_succ_apply']
    simpa [loopBody] using ih

theorem tour_iterate (fnn : NearestNodeFn R) (GA : GraphAttributes R)
    (s : LoopState R) (k : Nat) :
    ((loopBody fnn GA)^[k] s).tour
      = s.tour ++ (List.range k).map (fun j => s.GC.vOrig (chosen fnn GA s j)) := by
  induction k with
  | zero => simp
  | succ k ih =>
    rw [Function.iterate_succ_apply', List.range_succ, List.map_append,
      ← List.append_assoc, ← ih]
    simp [loopBody, GraphCopy.original, chosen, vOrig_iterate]

theorem minCost_iterate (fnn : NearestNodeFn R) (GA : GraphAttributes R)
    (s : LoopState R) (k : Nat) :
    ((loopBody fnn GA)^[k] s).minCost
      = ((List.range k).map (returned fnn GA s)).foldl (· + ·) s.minCost := by
  induction k with
  | zero => simp
  | succ k ih =>
    rw [Function.iterate_succ_apply', List.range_succ, List.map_append,
      List.foldl_append, ← ih]
    simp [loopBody, returned]

theorem nodes_iterate_succ (fnn : NearestNodeFn R) (GA : GraphAttributes R)
    (s : LoopState R) (k : Nat) :
    ((loopBody fnn GA)^[k + 1] s).GC.nodes
      = ((loopBody fnn GA)^[k] s).GC.nodes.erase (chosen fnn GA s k) := by
  rw [Function.iterate_succ_apply']
  simp [loopBody, GraphCopy.delNode, chosen]

theorem pose_iterate_succ (fnn : NearestNodeFn R) (GA : GraphAttributes R)
    (s : LoopState R) (k : Nat) :
    ((loopBody fnn GA)^[k + 1] s).C
      = { position := { m_x := GA.x (s.GC.vOrig (chosen fnn GA s k))
                        m_y := GA.y (s.GC.vOrig (chosen fnn GA s k)) }
          heading := s.C.heading } := by
  rw [Function.iterate_succ_apply']
  simp [loopBody, GraphCopy.original, chosen, vOrig_iterate, heading_iterate]

/-- Under the assumption on `findNearestNode`, `k` passes leave `len - k` nodes
in the copy, and the nodes chosen so far together with the remaining ones are
the nodes the copy started with. -/
theorem nodes_iterate (fnn : NearestNodeFn R) (GA : GraphAttributes R)
    (h : ReturnsNodeOfCopy fnn GA) (s : LoopState R) :
    ∀ k, k ≤ s.GC.nodes.length →
      ((loopBody fnn GA)^[k] s).GC.nodes.length = s.GC.nodes.length - k ∧
      List.Perm ((List.range k).map (chosen fnn GA s) ++ ((loopBody fnn GA)^[k] s).GC.nodes)
        s.GC.nodes := by
  intro k
  induction k with
  | zero => intro _; simp
  | succ k ih =>
    intro hk
    obtain ⟨hlen, hperm⟩ := ih (Nat.le_of_succ_le hk)
    have hne : ((loopBody fnn GA)^[k] s).GC.nodes ≠ [] := by
      intro h0
      rw [h0] at hlen
      simp at hlen
      omega
    have hmem : chosen fnn GA s k ∈ ((loopBody fnn GA)^[k] s).GC.nodes := h _ _ hne
    refine ⟨?_, ?_⟩
    · rw [nodes_iterate_succ, List.length_erase_of_mem hmem, hlen]
      omega
    · rw [nodes_iterate_succ, List.range_succ, List.map_append, List.append_assoc]
      refine List.Perm.trans ?_ hperm
      exact List.Perm.append_left _ (List.perm_cons_erase hmem).symm

end Passes

/-! ## The loop started from the initial state -/

section FromInit

variable {R : Type}

theorem init_nodes_length [Zero R] (G : Graph) (C_start : configuration_t R) (T : List node) :
    (initialState G C_start T).GC.nodes.length = G.nodes.length := by
  simp [initialState, GraphCopy.init]

theorem map_getD_range (l : List node) :
    (List.range l.length).map (fun i => l.getD i 0) = l := by
  apply List.ext_getElem
  · simp
  · intro i h1 h2
    simp [List.getD_eq_getElem?_getD, h2]

theorem init_map_vOrig [Zero R] (G : Graph) (C_start : configuration_t R) (T : List node) :
    (initialState G C_start T).GC.nodes.map (initialState G C_start T).GC.vOrig
      = G.nodes := by
  simpa [initialState, GraphCopy.init] using map_getD_range G.nodes

/-- Under the assumption on `findNearestNode` the loop makes exactly as many
passes as the copy has nodes on entry. -/
theorem whileLoop_eq [Add R] (fnn : NearestNodeFn R) (GA : GraphAttributes R)
    (h : ReturnsNodeOfCopy fnn GA) (fuel : Nat) (s : LoopState R) :
    whileLoop fnn GA fuel s
      = if s.GC.nodes.length ≤ fuel
        then some ((loopBody fnn GA)^[s.GC.nodes.length] s) else none := by
  apply whileLoop_eq_iterate
  · intro j hj h0
    have := (nodes_iterate fnn GA h s j (Nat.le_of_lt hj)).1
    rw [h0] at this
    simp at this
    omega
  · have := (nodes_iterate fnn GA h s _ (Nat.le_refl _)).1
    simpa using this

theorem solve_eq [Add R] [Zero R] (sqrt : R → R) [Sub R] [Mul R] (fnn : NearestNodeFn R)
    (GA : GraphAttributes R) (h : ReturnsNodeOfCopy fnn GA) (fuel : Nat) (G : Graph)
    (C_start C_end : configuration_t R) (T : List node)
    (hfuel : G.nodes.length ≤ fuel) :
    solveETSPNearestNeighbor sqrt fnn fuel G GA C_start C_end T
      = some ((stateAfter fnn G GA C_start T G.nodes.length).minCost
                + closingLeg sqrt (stateAfter fnn G GA C_start T G.nodes.length).C C_end,
              (stateAfter fnn G GA C_start T G.nodes.length).tour) := by
  unfold solveETSPNearestNeighbor
  rw [whileLoop_eq fnn GA h, init_nodes_length, if_pos hfuel]
  rfl

theorem solve_eq_none [Add R] [Zero R] (sqrt : R → R) [Sub R] [Mul R] (fnn : NearestNodeFn R)
    (GA : GraphAttributes R) (h : ReturnsNodeOfCopy fnn GA) (fuel : Nat) (G : Graph)
    (C_start C_end : configuration_t R) (T : List node)
    (hfuel : fuel < G.nodes.length) :
    solveETSPNearestNeighbor sqrt fnn fuel G GA C_start C_end T = none := by
  unfold solveETSPNearestNeighbor
  rw [whileLoop_eq fnn GA h, init_nodes_length, if_neg (Nat.not_le.mpr hfuel)]

/-- The originals of the nodes chosen in the first `k` passes, in order. -/
theorem stateAfter_tour [Add R] [Zero R] (fnn : NearestNodeFn R) (GA : GraphAttributes R) (G : Graph)
    (C_start : configuration_t R) (T : List node) (k : Nat) :
    (stateAfter fnn G GA C_start T k).tour
      = T ++ (List.range k).map
          (fun j => (GraphCopy.init G).vOrig (chosen fnn GA (initialState G C_start T) j)) :=
  tour_iterate fnn GA (initialState G C_start T) k

/-- The originals of the chosen nodes followed by the originals of the remaining
ones are a rearrangement of the nodes of `G`. -/
theorem perm_originals [Add R] [Zero R] (fnn : NearestNodeFn R) (GA : GraphAttributes R)
    (h : ReturnsNodeOfCopy fnn GA) (G : Graph) (C_start : configuration_t R)
    (T : List node) (k : Nat) (hk : k ≤ G.nodes.length) :
    List.Perm
      ((List.range k).map
          (fun j => (GraphCopy.init G).vOrig (chosen fnn GA (initialState G C_start T) j))
        ++ (stateAfter fnn G GA C_start T k).GC.nodes.map (GraphCopy.init G).vOrig)
      G.nodes := by
  have hk2 : k ≤ (initialState G C_start T).GC.nodes.length := by
    rw [init_nodes_length]; exact hk
  have hp := (nodes_iterate fnn GA h (initialState G C_start T) k hk2).2
  have hm := hp.map (GraphCopy.init G).vOrig
  rw [List.map_append, List.map_map] at hm
  have e := init_map_vOrig G C_start T
  exact hm.trans (List.Perm.of_eq e)

/-- The copy and the pose after `k` passes do not depend on the content of the
tour list (nor on the cost accumulated so far). -/
theorem iterate_congr [Add R] (fnn : NearestNodeFn R) (GA : GraphAttributes R)
    (s t : LoopState R) (hGC : s.GC = t.GC) (hC : s.C = t.C) (k : Nat) :
    ((loopBody fnn GA)^[k] s).GC = ((loopBody fnn GA)^[k] t).GC ∧
    ((loopBody fnn GA)^[k] s).C = ((loopBody fnn GA)^[k] t).C := by
  induction k with
  | zero => exact ⟨hGC, hC⟩
  | succ k ih =>
    rw [Function.iterate_succ_apply', Function.iterate_succ_apply']
    simp only [loopBody, ih.1, ih.2, and_self]

theorem chosen_congr [Add R] [Zero R] (fnn : NearestNodeFn R) (GA : GraphAttributes R)
    (G : Graph) (C_start : configuration_t R) (T : List node) (j : Nat) :
    chosen fnn GA (initialState G C_start T) j
      = chosen fnn GA (initialState G C_start []) j := by
  have := iterate_congr fnn GA (initialState G C_start T) (initialState G C_start [])
    rfl rfl j
  simp only [chosen, this.1, this.2]

theorem remaining_nil [Add R] [Zero R] (fnn : NearestNodeFn R) (GA : GraphAttributes R)
    (h : ReturnsNodeOfCopy fnn GA) (G : Graph) (C_start : configuration_t R)
    (T : List node) :
    (stateAfter fnn G GA C_start T G.nodes.length).GC.nodes = [] := by
  have := (nodes_iterate fnn GA h (initialState G C_start T) G.nodes.length
    (by rw [init_nodes_length])).1
  rw [init_nodes_length] at this
  simpa [stateAfter] using this

theorem remaining_length [Add R] [Zero R] (fnn : NearestNodeFn R) (GA : GraphAttributes R)
    (h : ReturnsNodeOfCopy fnn GA) (G : Graph) (C_start : configuration_t R)
    (T : List node) (k : Nat) (hk : k ≤ G.nodes.length) :
    (stateAfter fnn G GA C_start T k).GC.nodes.length = G.nodes.length - k := by
  have := (nodes_iterate fnn GA h (initialState G C_start T) k
    (by rw [init_nodes_length]; exact hk)).1
  rw [init_nodes_length] at this
  simpa [stateAfter] using this

/-- The visiting order is a rearrangement of the nodes of `G`. -/
theorem perm_order [Add R] [Zero R] (fnn : NearestNodeFn R) (GA : GraphAttributes R)
    (h : ReturnsNodeOfCopy fnn GA) (G : Graph) (C_start : configuration_t R)
    (T : List node) :
    List.Perm
      ((List.range G.nodes.length).map
          (fun j => (GraphCopy.init G).vOrig (chosen fnn GA (initialState G C_start T) j)))
      G.nodes := by
  have hp := perm_originals fnn GA h G C_start T G.nodes.length (Nat.le_refl _)
  rw [remaining_nil fnn GA h G C_start T] at hp
  simpa using hp

end FromInit

/-! ## Facts used by the claims about the visiting order -/

section Order

variable {R : Type} [Add R] [Zero R]

/-- The visiting order of a call started with an empty tour list. -/
theorem stateAfter_tour_nil (fnn : NearestNodeFn R) (GA : GraphAttributes R) (G : Graph)
    (C_start : configuration_t R) (k : Nat) :
    (stateAfter fnn G GA C_start [] k).tour
      = (List.range k).map
          (fun j => (GraphCopy.init G).vOrig (chosen fnn GA (initialState G C_start []) j)) := by
  rw [stateAfter_tour, List.nil_append]

theorem stateAfter_original (fnn : NearestNodeFn R) (GA : GraphAttributes R) (G : Graph)
    (C_start : configuration_t R) (T : List node) (k : Nat) :
    (stateAfter fnn G GA C_start T k).GC.original = (GraphCopy.init G).vOrig := by
  funext vC
  simp only [GraphCopy.original, stateAfter, vOrig_iterate]
  rfl

theorem remaining_eq (fnn : NearestNodeFn R) (GA : GraphAttributes R) (G : Graph)
    (C_start : configuration_t R) (T : List node) (k : Nat) :
    remaining fnn G GA C_start T k
      = (stateAfter fnn G GA C_start T k).GC.nodes.map (GraphCopy.init G).vOrig := by
  rw [remaining, stateAfter_original]

/-- After `k` passes the tour followed by the originals of the remaining nodes
is a rearrangement of the nodes of `G`. -/
theorem perm_tour_remaining (fnn : NearestNodeFn R) (GA : GraphAttributes R)
    (h : ReturnsNodeOfCopy fnn GA) (G : Graph) (C_start : configuration_t R)
    (k : Nat) (hk : k ≤ G.nodes.length) :
    List.Perm ((stateAfter fnn G GA C_start [] k).tour ++ remaining fnn G GA C_start [] k)
      G.nodes := by
  rw [stateAfter_tour_nil, remaining_eq]
  exact perm_originals fnn GA h G C_start [] k hk

/-- The nodes chosen so far followed by the remaining copy nodes have no
duplicates. -/
theorem nodup_chosen_remaining (fnn : NearestNodeFn R) (GA : GraphAttributes R)
    (h : ReturnsNodeOfCopy fnn GA) (G : Graph) (C_start : configuration_t R)
    (T : List node) (k : Nat) (hk : k ≤ G.nodes.length) :
    ((List.range k).map (chosen fnn GA (initialState G C_start T))
      ++ (stateAfter fnn G GA C_start T k).GC.nodes).Nodup := by
  have hp := (nodes_iterate fnn GA h (initialState G C_start T) k
    (by rw [init_nodes_length]; exact hk)).2
  refine hp.nodup_iff.mpr ?_
  simpa [initialState, GraphCopy.init] using List.nodup_range G.nodes.length

theorem chosen_mem (fnn : NearestNodeFn R) (GA : GraphAttributes R)
    (h : ReturnsNodeOfCopy fnn GA) (G : Graph) (C_start : configuration_t R)
    (T : List node) (k : Nat) (hk : k < G.nodes.length) :
    chosen fnn GA (initialState G C_start T) k
      ∈ (stateAfter fnn G GA C_start T k).GC.nodes := by
  apply h
  intro h0
  have := remaining_length fnn GA h G C_start T k (Nat.le_of_lt hk)
  rw [h0] at this
  simp at this
  omega

theorem stateAfter_pose (fnn : NearestNodeFn R) (GA : GraphAttributes R) (G : Graph)
    (C_start : configuration_t R) (T : List node) (k : Nat) :
    (stateAfter fnn G GA C_start T (k + 1)).C
      = { position :=
            { m_x := GA.x ((GraphCopy.init G).vOrig (chosen fnn GA (initialState G C_start T) k))
              m_y := GA.y ((GraphCopy.init G).vOrig (chosen fnn GA (initialState G C_start T) k)) }
          heading := C_start.heading } :=
  pose_iterate_succ fnn GA (initialState G C_start T) k

end Order

/-! ## The sample `findNearestNode` -/

theorem scan_fold (d : node → ℤ) :
    ∀ (us : List node) (b : node × ℤ), b.2 = d b.1 →
      ((us.foldl (fun best w => if d w < best.2 then (w, d w) else best) b).1 = b.1 ∨
        (us.foldl (fun best w => if d w < best.2 then (w, d w) else best) b).1 ∈ us) ∧
      (us.foldl (fun best w => if d w < best.2 then (w, d w) else best) b).2
        = d (us.foldl (fun best w => if d w < best.2 then (w, d w) else best) b).1 ∧
      (us.foldl (fun best w => if d w < best.2 then (w, d w) else best) b).2 ≤ b.2 ∧
      ∀ w ∈ us, (us.foldl (fun best w => if d w < best.2 then (w, d w) else best) b).2 ≤ d w := by
  intro us
  induction us with
  | nil => intro b hb; simp [hb]
  | cons w us ih =>
    intro b hb
    rw [List.foldl_cons]
    by_cases hlt : d w < b.2
    · rw [if_pos hlt]
      obtain ⟨h1, h2, h3, h4⟩ := ih (w, d w) rfl
      refine ⟨?_, h2, le_trans h3 (le_of_lt hlt), ?_⟩
      · rcases h1 with h1 | h1
        · right; rw [h1]; simp
        · right; exact List.mem_cons_of_mem _ h1
      · intro x hx
        rcases List.mem_cons.mp hx with rfl | hx
        · exact h3
        · exact h4 x hx
    · rw [if_neg hlt]
      obtain ⟨h1, h2, h3, h4⟩ := ih b hb
      refine ⟨?_, h2, h3, ?_⟩
      · rcases h1 with h1 | h1
        · left; exact h1
        · right; exact List.mem_cons_of_mem _ h1
      · intro x hx
        rcases List.mem_cons.mp hx with rfl | hx
        · exact le_trans h3 (not_lt.mp hlt)
        · exact h4 x hx

/-- The sample gives back a node of the copy, the straight-line distance to its
original, and no node of the copy is nearer. -/
theorem scanNearest_spec (sqrt : ℤ → ℤ) (GA : GraphAttributes ℤ) (GC : GraphCopy)
    (C : configuration_t ℤ) (hne : GC.nodes ≠ []) :
    (scanNearest sqrt GC GA C).1 ∈ GC.nodes ∧
    (scanNearest sqrt GC GA C).2
      = straightLine sqrt GA C (GC.original (scanNearest sqrt GC GA C).1) ∧
    ∀ u ∈ GC.nodes,
      straightLine sqrt GA C (GC.original (scanNearest sqrt GC GA C).1)
        ≤ straightLine sqrt GA C (GC.original u) := by
  unfold scanNearest
  cases hn : GC.nodes with
  | nil => exact absurd hn hne
  | cons u us =>
    simp only
    obtain ⟨h1, h2, h3, h4⟩ :=
      scan_fold (fun w => straightLine sqrt GA C (GC.original w)) us
        (u, straightLine sqrt GA C (GC.original u)) rfl
    refine ⟨?_, h2, ?_⟩
    · rcases h1 with h1 | h1
      · rw [h1]; simp
      · exact List.mem_cons_of_mem _ h1
    · intro x hx
      rw [← h2]
      rcases List.mem_cons.mp hx with rfl | hx
      · exact h3
      · exact h4 x hx

theorem scanNearest_returnsNodeOfCopy (sqrt : ℤ → ℤ) (GA : GraphAttributes ℤ) :
    ReturnsNodeOfCopy (scanNearest sqrt) GA :=
  fun GC C hne => (scanNearest_spec sqrt GA GC C hne).1

theorem scanNearest_returnsNearest (sqrt : ℤ → ℤ) (GA : GraphAttributes ℤ) :
    ReturnsNearest (straightLine sqrt GA) (scanNearest sqrt) GA :=
  fun GC C hne =>
    ⟨(scanNearest_spec sqrt GA GC C hne).1, (scanNearest_spec sqrt GA GC C hne).2.2⟩

/-- The sample for an arbitrary cost gives back a node of the copy, and no node
of the copy is cheaper from the pose it is given. -/
theorem scanLeast_returnsNearest (cost : configuration_t ℤ → node → ℤ)
    (GA : GraphAttributes ℤ) : ReturnsNearest cost (scanLeast cost) GA := by
  intro GC C hne
  unfold scanLeast
  cases hn : GC.nodes with
  | nil => exact absurd hn hne
  | cons u us =>
    simp only
    obtain ⟨h1, h2, h3, h4⟩ :=
      scan_fold (fun w => cost C (GC.original w)) us (u, cost C (GC.original u)) rfl
    refine ⟨?_, ?_⟩
    · rcases h1 with h1 | h1
      · rw [h1]; simp
      · exact List.mem_cons_of_mem _ h1
    · intro x hx
      rw [← h2]
      rcases List.mem_cons.mp hx with rfl | hx
      · exact h3
      · exact h4 x hx

/-! ## Greedy selection, one step -/

section Greedy

variable {R : Type} [Add R] [Zero R]

/-- Membership in the originals of the remaining nodes after `k` passes: the
nodes of `G` not yet in the tour. -/
theorem mem_remaining_iff (fnn : NearestNodeFn R) (GA : GraphAttributes R)
    (h : ReturnsNodeOfCopy fnn GA) (G : Graph) (hG : G.nodes.Nodup)
    (C_start : configuration_t R) (k : Nat) (hk : k ≤ G.nodes.length) (w : node) :
    w ∈ remaining fnn G GA C_start [] k
      ↔ (w ∈ G.nodes ∧ w ∉ (stateAfter fnn G GA C_start [] k).tour) := by
  have hp := perm_tour_remaining fnn GA h G C_start k hk
  have hnd := hp.nodup_iff.mpr hG
  have hdis := (List.nodup_append.mp hnd).2.2
  constructor
  · intro hw
    exact ⟨hp.mem_iff.mp (List.mem_append_right _ hw), fun ht => hdis ht hw⟩
  · rintro ⟨hw, hnt⟩
    rcases List.mem_append.mp (hp.mem_iff.mpr hw) with ht | hr
    · exact absurd ht hnt
    · exact hr

/-- In pass `k` no remaining node is cheaper, from the current pose, than the
node that is chosen. -/
theorem chosen_least [LE R] (cost : configuration_t R → node → R)
    (fnn : NearestNodeFn R) (GA : GraphAttributes R) (h : ReturnsNearest cost fnn GA)
    (G : Graph) (C_start : configuration_t R) (k : Nat) (w : node)
    (hw : w ∈ remaining fnn G GA C_start [] k) :
    cost (stateAfter fnn G GA C_start [] k).C
        ((GraphCopy.init G).vOrig (chosen fnn GA (initialState G C_start []) k))
      ≤ cost (stateAfter fnn G GA C_start [] k).C w := by
  rw [remaining_eq] at hw
  obtain ⟨u, hu, rfl⟩ := List.mem_map.mp hw
  have hne : (stateAfter fnn G GA C_start [] k).GC.nodes ≠ [] :=
    List.ne_nil_of_mem hu
  have := (h _ (stateAfter fnn G GA C_start [] k).C hne).2 u hu
  rw [stateAfter_original] at this
  exact this

theorem take_order (f : Nat → node) (n i : Nat) (hi : i ≤ n) :
    ((List.range n).map f).take i = (List.range i).map f := by
  rw [← List.map_take, List.take_range, Nat.min_eq_left hi]

theorem getD_order (f : Nat → node) (n i : Nat) (hi : i < n) :
    ((List.range n).map f).getD i 0 = f i := by
  simp [List.getD_eq_getElem?_getD, hi]

end Greedy

/-! ## The straight-line distance over the reals -/

theorem DPoint.eq_iff {R : Type} (p q : DPoint R) :
    p = q ↔ p.m_x = q.m_x ∧ p.m_y = q.m_y := by
  cases p; cases q; simp

theorem distance_nonneg (p q : DPoint ℝ) : 0 ≤ p.distance Real.sqrt q :=
  Real.sqrt_nonneg _

theorem distance_eq_zero_iff (p q : DPoint ℝ) :
    p.distance Real.sqrt q = 0 ↔ p = q := by
  have hsq : 0 ≤ (q.m_x - p.m_x) * (q.m_x - p.m_x) + (q.m_y - p.m_y) * (q.m_y - p.m_y) :=
    add_nonneg (mul_self_nonneg _) (mul_self_nonneg _)
  unfold DPoint.distance
  rw [Real.sqrt_eq_zero hsq, mul_self_add_mul_self_eq_zero, sub_eq_zero, sub_eq_zero,
    DPoint.eq_iff]
  constructor
  · rintro ⟨h1, h2⟩; exact ⟨h1.symm, h2.symm⟩
  · rintro ⟨h1, h2⟩; exact ⟨h1.symm, h2.symm⟩

/-- On a graph without nodes the loop body is never entered. -/
theorem solve_no_nodes {R : Type} [Add R] [Sub R] [Mul R] [Zero R] (sqrt : R → R)
    (fnn : NearestNodeFn R) (fuel : Nat) (GA : GraphAttributes R)
    (C_start C_end : configuration_t R) (T : List node) :
    solveETSPNearestNeighbor sqrt fnn fuel { nodes := [] } GA C_start C_end T
      = some (0 + C_start.position.distance sqrt C_end.position, T) := by
  unfold solveETSPNearestNeighbor
  rw [whileLoop_of_empty fnn GA fuel _ (by simp [initialState, GraphCopy.init])]
  rfl

/-! ## The claims -/

section Claims

variable {R : Type}

/-- C1 (completeness): when `findNearestNode` gives back a node of the copy it
is given and the call starts from an empty tour list, `solveETSPNearestNeighbor`
returns, and the tour on return has as many entries as `G` has nodes, has no
duplicates, and has exactly the nodes of `G` as its entries. -/
theorem tour_complete [Add R] [Sub R] [Mul R] [Zero R] (sqrt : R → R)
    (fnn : NearestNodeFn R) (GA : GraphAttributes R) (h : ReturnsNodeOfCopy fnn GA)
    (G : Graph) (hG : G.nodes.Nodup) (C_start C_end : configuration_t R)
    (fuel : Nat) (hfuel : G.nodes.length ≤ fuel) :
    ∃ (cost : R) (tour : List node),
      solveETSPNearestNeighbor sqrt fnn fuel G GA C_start C_end [] = some (cost, tour) ∧
      tour.length = G.nodes.length ∧ tour.Nodup ∧ ∀ v, v ∈ tour ↔ v ∈ G.nodes := by
  refine ⟨_, _, solve_eq sqrt fnn GA h fuel G C_start C_end [] hfuel, ?_⟩
  have hp := perm_order fnn GA h G C_start []
  rw [stateAfter_tour, List.nil_append]
  exact ⟨by simp, hp.nodup_iff.mpr hG, fun v => hp.mem_iff⟩

/-- C2 (total-cost decomposition): the returned cost is the sum, started at 0
and taken in the order of the passes, of the costs returned by
`findNearestNode`, plus the closing leg from the final current pose to the end
configuration. -/
theorem cost_decomposition [Add R] [Sub R] [Mul R] [Zero R] (sqrt : R → R)
    (fnn : NearestNodeFn R) (GA : GraphAttributes R) (h : ReturnsNodeOfCopy fnn GA)
    (G : Graph) (C_start C_end : configuration_t R) (T : List node)
    (fuel : Nat) (hfuel : G.nodes.length ≤ fuel) :
    (solveETSPNearestNeighbor sqrt fnn fuel G GA C_start C_end T).map Prod.fst
      = some
          (((List.range G.nodes.length).map
              (returned fnn GA (initialState G C_start T))).foldl (· + ·) 0
            + closingLeg sqrt (stateAfter fnn G GA C_start T G.nodes.length).C C_end) := by
  rw [solve_eq sqrt fnn GA h fuel G C_start C_end T hfuel]
  simp only [Option.map_some', stateAfter, minCost_iterate]
  rfl

/-- C3 (greedy selection, as the code has it): when `findNearestNode` gives back
a node of least cost from the pose it is given among the nodes of the copy it is
given, the function returns a tour such that at every index `i` the pose scanned
from is the current pose before step `i` (the start configuration for `i = 0`,
otherwise the position of `tour[i-1]` with the heading of the start
configuration), the nodes scanned are exactly the nodes of `G` not among
`tour[0..i-1]`, and the cost from that pose to `tour[i]` is at most the cost from
that pose to each of those nodes. -/
theorem greedy_selection [Add R] [Sub R] [Mul R] [Zero R] [LE R] (sqrt : R → R)
    (cost : configuration_t R → node → R) (fnn : NearestNodeFn R)
    (GA : GraphAttributes R) (h : ReturnsNearest cost fnn GA)
    (G : Graph) (hG : G.nodes.Nodup) (C_start C_end : configuration_t R)
    (fuel : Nat) (hfuel : G.nodes.length ≤ fuel) :
    ∃ (c : R) (tour : List node),
      solveETSPNearestNeighbor sqrt fnn fuel G GA C_start C_end [] = some (c, tour) ∧
      ∀ (i : Nat) (hi : i < tour.length),
        (stateAfter fnn G GA C_start [] i).C = poseBefore GA C_start tour i ∧
        (∀ w, w ∈ remaining fnn G GA C_start [] i ↔ (w ∈ G.nodes ∧ w ∉ tour.take i)) ∧
        (∀ w, w ∈ G.nodes → w ∉ tour.take i →
          cost (poseBefore GA C_start tour i) tour[i]
            ≤ cost (poseBefore GA C_start tour i) w) := by
  have h1 : ReturnsNodeOfCopy fnn GA := fun GC C hne => (h GC C hne).1
  refine ⟨(stateAfter fnn G GA C_start [] G.nodes.length).minCost
      + closingLeg sqrt (stateAfter fnn G GA C_start [] G.nodes.length).C C_end,
    (List.range G.nodes.length).map
      (fun j => (GraphCopy.init G).vOrig (chosen fnn GA (initialState G C_start []) j)),
    ?_, ?_⟩
  · rw [solve_eq sqrt fnn GA h1 fuel G C_start C_end [] hfuel, stateAfter_tour_nil]
  · intro i hi
    have hi2 : i < G.nodes.length := by simpa using hi
    have hpose : (stateAfter fnn G GA C_start [] i).C
        = poseBefore GA C_start ((List.range G.nodes.length).map
            (fun j => (GraphCopy.init G).vOrig
              (chosen fnn GA (initialState G C_start []) j))) i := by
      cases i with
      | zero => rfl
      | succ j =>
        rw [stateAfter_pose, poseBefore,
          getD_order _ _ j (Nat.lt_of_succ_lt hi2)]
    have hmem : ∀ w, w ∈ remaining fnn G GA C_start [] i ↔
        (w ∈ G.nodes ∧ w ∉ ((List.range G.nodes.length).map
            (fun j => (GraphCopy.init G).vOrig
              (chosen fnn GA (initialState G C_start []) j))).take i) := by
      intro w
      rw [take_order _ _ i (Nat.le_of_lt hi2), ← stateAfter_tour_nil]
      exact mem_remaining_iff fnn GA h1 G hG C_start i (Nat.le_of_lt hi2) w
    refine ⟨hpose, hmem, ?_⟩
    intro w hw hnt
    have hr := (hmem w).mpr ⟨hw, hnt⟩
    have := chosen_least cost fnn GA h G C_start i w hr
    rw [hpose] at this
    simpa using this

/-- C3 as stated fails: three nodes at (10, 0), (0, 10), (-10, 0) that the data
model of the spec gives heading 1, start ((0, 0), heading 0), a cost that depends
on the heading of the pose, and a `findNearestNode` of least cost.  The tour is
`[0, 1, 2]`; the scan of step 1 starts from ((10, 0), heading 0), where node 1
costs 200 and node 2 costs 400, but from the pose of node 0, ((10, 0), heading 1),
node 1 costs -200 and the unvisited node 2 costs -400. -/
theorem greedy_not_from_node_pose :
    ReturnsNearest (headingCost sampleGA) (scanLeast (headingCost sampleGA)) sampleGA ∧
    (solveETSPNearestNeighbor Int.sqrt (scanLeast (headingCost sampleGA)) 3 sampleGraph
        sampleGA sampleStart sampleStart []).map Prod.snd = some [0, 1, 2] ∧
    (stateAfter (scanLeast (headingCost sampleGA)) sampleGraph sampleGA sampleStart [] 1).C
      = { position := { m_x := 10, m_y := 0 }, heading := 0 } ∧
    specPoseBefore sampleGA (fun _ => 1) sampleStart [0, 1, 2] 1
      = { position := { m_x := 10, m_y := 0 }, heading := 1 } ∧
    (2 ∈ sampleGraph.nodes ∧ 2 ∉ ([0, 1, 2] : List node).take 1) ∧
    headingCost sampleGA (specPoseBefore sampleGA (fun _ => 1) sampleStart [0, 1, 2] 1)
        (([0, 1, 2] : List node).getD 1 0) = -200 ∧
    headingCost sampleGA (specPoseBefore sampleGA (fun _ => 1) sampleStart [0, 1, 2] 1) 2
      = -400 ∧
    ¬ (headingCost sampleGA (specPoseBefore sampleGA (fun _ => 1) sampleStart [0, 1, 2] 1)
          (([0, 1, 2] : List node).getD 1 0)
        ≤ headingCost sampleGA
            (specPoseBefore sampleGA (fun _ => 1) sampleStart [0, 1, 2] 1) 2) :=
  ⟨scanLeast_returnsNearest (headingCost sampleGA) sampleGA,
    by decide, by decide, by decide, by decide, by decide, by decide, by decide⟩

/-- C4 (empty input, as the code has it): on a graph without nodes, called with
an empty tour list, the function leaves the tour empty and returns the
straight-line distance from the start position to the end position; this is 0
exactly when the two positions coincide (as they do in `main`). -/
theorem empty_graph (fnn : NearestNodeFn ℝ) (GA : GraphAttributes ℝ)
    (C_start C_end : configuration_t ℝ) (fuel : Nat) :
    solveETSPNearestNeighbor Real.sqrt fnn fuel { nodes := [] } GA C_start C_end []
      = some (C_start.position.distance Real.sqrt C_end.position, []) ∧
    (C_start.position.distance Real.sqrt C_end.position = 0
      ↔ C_start.position = C_end.position) := by
  refine ⟨?_, distance_eq_zero_iff _ _⟩
  rw [solve_no_nodes, zero_add]

/-- C4 as stated fails: with no nodes, start position (0, 0) and end position
(1, 0), the returned cost is 1, not 0. -/
theorem no_nodes_cost_not_zero :
    solveETSPNearestNeighbor Real.sqrt (fun _ _ _ => (0, 0)) 0 { nodes := [] }
        { x := fun _ => 0, y := fun _ => 0 }
        { position := { m_x := 0, m_y := 0 }, heading := 0 }
        { position := { m_x := 1, m_y := 0 }, heading := 0 } []
      = some (1, []) ∧
    solveETSPNearestNeighbor Real.sqrt (fun _ _ _ => (0, 0)) 0 { nodes := [] }
        { x := fun _ => 0, y := fun _ => 0 }
        { position := { m_x := 0, m_y := 0 }, heading := 0 }
        { position := { m_x := 1, m_y := 0 }, heading := 0 } []
      ≠ some ((0 : ℝ), []) := by
  rw [solve_no_nodes]
  simp [DPoint.distance]

/-- C6 (closing leg, as the code has it): the amount added after the loop is not
negative, it is 0 exactly when the positions of `C` and `C_end` are the same, and
it does not depend on either heading. -/
theorem closing_leg_cost (C C_end : configuration_t ℝ) :
    0 ≤ closingLeg Real.sqrt C C_end ∧
    (closingLeg Real.sqrt C C_end = 0 ↔ C.position = C_end.position) ∧
    ∀ h1 h2 : ℝ,
      closingLeg Real.sqrt { position := C.position, heading := h1 }
          { position := C_end.position, heading := h2 }
        = closingLeg Real.sqrt C C_end :=
  ⟨distance_nonneg _ _, distance_eq_zero_iff _ _, fun _ _ => rfl⟩

/-- C6 as stated fails: with both positions (0, 0), heading 1 for `C` and heading
0 for `C_end`, the two configurations differ and the amount added is 0. -/
theorem closing_leg_ignores_heading :
    closingLeg Real.sqrt
        { position := { m_x := 0, m_y := 0 }, heading := 1 }
        { position := { m_x := 0, m_y := 0 }, heading := 0 } = 0 ∧
    ({ position := { m_x := 0, m_y := 0 }, heading := 1 } : configuration_t ℝ)
      ≠ { position := { m_x := 0, m_y := 0 }, heading := 0 } := by
  constructor
  · simp [closingLeg, DPoint.distance]
  · intro h
    have := congrArg configuration_t.heading h
    simp at this

/-- C7 (current-pose update, as the code has it): pass `k` appends the chosen
node `v` to the tour, removes its copy from the remaining set, and sets the
position of the current pose to `(GA.x(v), GA.y(v))`; the heading of the current
pose is not written and stays the heading of the start configuration. -/
theorem pose_update [Add R] [Zero R] (fnn : NearestNodeFn R) (GA : GraphAttributes R)
    (G : Graph) (C_start : configuration_t R) (T : List node) (k : Nat) :
    (stateAfter fnn G GA C_start T (k + 1)).tour
      = (stateAfter fnn G GA C_start T k).tour
          ++ [(stateAfter fnn G GA C_start T k).GC.original
                (chosen fnn GA (initialState G C_start T) k)] ∧
    (stateAfter fnn G GA C_start T (k + 1)).GC.nodes
      = (stateAfter fnn G GA C_start T k).GC.nodes.erase
          (chosen fnn GA (initialState G C_start T) k) ∧
    (stateAfter fnn G GA C_start T (k + 1)).C.position
      = { m_x := GA.x ((stateAfter fnn G GA C_start T k).GC.original
                  (chosen fnn GA (initialState G C_start T) k))
          m_y := GA.y ((stateAfter fnn G GA C_start T k).GC.original
                  (chosen fnn GA (initialState G C_start T) k)) } ∧
    (stateAfter fnn G GA C_start T (k + 1)).C.heading = C_start.heading := by
  refine ⟨?_, nodes_iterate_succ fnn GA _ k, ?_, ?_⟩
  · simp only [stateAfter, Function.iterate_succ_apply']
    rfl
  · simp only [stateAfter, Function.iterate_succ_apply']
    rfl
  · exact heading_iterate fnn GA (initialState G C_start T) (k + 1)

/-- C7 as stated fails: one node (node 0, at (10, 0)) that the data model of the
spec gives heading 1, start configuration ((0, 0), heading 0); after the pass the
tour is `[0]` and the current pose is ((10, 0), heading 0), which is not the
configuration ((10, 0), heading 1) of node 0. -/
theorem pose_heading_not_updated :
    (stateAfter (scanNearest Int.sqrt) { nodes := [0] } sampleGA sampleStart [] 1).tour
      = [0] ∧
    (stateAfter (scanNearest Int.sqrt) { nodes := [0] } sampleGA sampleStart [] 1).C
      = { position := { m_x := 10, m_y := 0 }, heading := 0 } ∧
    nodeConfiguration sampleGA (fun _ => 1) 0
      = { position := { m_x := 10, m_y := 0 }, heading := 1 } ∧
    (stateAfter (scanNearest Int.sqrt) { nodes := [0] } sampleGA sampleStart [] 1).C
      ≠ nodeConfiguration sampleGA (fun _ => 1) 0 := by
  decide

/-- C8 (candidate-set invariant): when `findNearestNode` gives back a node of
the copy it is given, after `k` passes (`k` from 0 to `n`) the tour and the
originals of the remaining nodes are disjoint and together are the nodes of `G`,
`n - k` nodes remain, pass `k` removes exactly the node it chose (whose original
it appends to the tour), and a node chosen in an earlier pass is neither in the
remaining set nor chosen again. -/
theorem candidate_set_invariant [Add R] [Zero R] (fnn : NearestNodeFn R)
    (GA : GraphAttributes R) (h : ReturnsNodeOfCopy fnn GA) (G : Graph)
    (hG : G.nodes.Nodup) (C_start : configuration_t R) (k : Nat)
    (hk : k ≤ G.nodes.length) :
    List.Disjoint (stateAfter fnn G GA C_start [] k).tour
      (remaining fnn G GA C_start [] k) ∧
    (∀ v, v ∈ G.nodes ↔
      (v ∈ (stateAfter fnn G GA C_start [] k).tour ∨ v ∈ remaining fnn G GA C_start [] k)) ∧
    (stateAfter fnn G GA C_start [] k).tour.length = k ∧
    (stateAfter fnn G GA C_start [] k).GC.nodes.length = G.nodes.length - k ∧
    (k < G.nodes.length →
      chosen fnn GA (initialState G C_start []) k
        ∈ (stateAfter fnn G GA C_start [] k).GC.nodes ∧
      (stateAfter fnn G GA C_start [] (k + 1)).GC.nodes
        = (stateAfter fnn G GA C_start [] k).GC.nodes.erase
            (chosen fnn GA (initialState G C_start []) k) ∧
      List.Perm (stateAfter fnn G GA C_start [] k).GC.nodes
        (chosen fnn GA (initialState G C_start []) k
          :: (stateAfter fnn G GA C_start [] (k + 1)).GC.nodes) ∧
      (stateAfter fnn G GA C_start [] (k + 1)).tour
        = (stateAfter fnn G GA C_start [] k).tour
            ++ [(GraphCopy.init G).original
                  (chosen fnn GA (initialState G C_start []) k)]) ∧
    (∀ j, j < k →
      chosen fnn GA (initialState G C_start []) j
        ∉ (stateAfter fnn G GA C_start [] k).GC.nodes ∧
      (GraphCopy.init G).original (chosen fnn GA (initialState G C_start []) j)
        ∉ remaining fnn G GA C_start [] k ∧
      (k < G.nodes.length →
        chosen fnn GA (initialState G C_start []) k
          ≠ chosen fnn GA (initialState G C_start []) j ∧
        (GraphCopy.init G).original (chosen fnn GA (initialState G C_start []) k)
          ≠ (GraphCopy.init G).original (chosen fnn GA (initialState G C_start []) j))) := by
  have hp := perm_tour_remaining fnn GA h G C_start k hk
  have hdis : List.Disjoint (stateAfter fnn G GA C_start [] k).tour
      (remaining fnn G GA C_start [] k) :=
    (List.nodup_append.mp (hp.nodup_iff.mpr hG)).2.2
  have hcopy := nodup_chosen_remaining fnn GA h G C_start [] k hk
  have hcdis := (List.nodup_append.mp hcopy).2.2
  have hold : ∀ j, j < k →
      chosen fnn GA (initialState G C_start []) j
        ∉ (stateAfter fnn G GA C_start [] k).GC.nodes ∧
      (GraphCopy.init G).original (chosen fnn GA (initialState G C_start []) j)
        ∉ remaining fnn G GA C_start [] k := by
    intro j hj
    constructor
    · intro hin
      exact hcdis (List.mem_map.mpr ⟨j, List.mem_range.mpr hj, rfl⟩) hin
    · intro hin
      refine hdis ?_ hin
      rw [stateAfter_tour_nil]
      exact List.mem_map.mpr ⟨j, List.mem_range.mpr hj, rfl⟩
  refine ⟨hdis, ?_, ?_, remaining_length fnn GA h G C_start [] k hk, ?_, ?_⟩
  · intro v
    rw [← hp.mem_iff, List.mem_append]
  · rw [stateAfter_tour_nil]; simp
  · intro hlt
    have hmem := chosen_mem fnn GA h G C_start [] k hlt
    have hnext : (stateAfter fnn G GA C_start [] (k + 1)).GC.nodes
        = (stateAfter fnn G GA C_start [] k).GC.nodes.erase
            (chosen fnn GA (initialState G C_start []) k) :=
      nodes_iterate_succ fnn GA _ k
    refine ⟨hmem, hnext, ?_, ?_⟩
    · rw [hnext]
      exact List.perm_cons_erase hmem
    · rw [stateAfter_tour_nil, stateAfter_tour_nil, List.range_succ, List.map_append]
      rfl
  · intro j hj
    refine ⟨(hold j hj).1, (hold j hj).2, ?_⟩
    intro hlt
    have hmem := chosen_mem fnn GA h G C_start [] k hlt
    constructor
    · intro heq
      exact (hold j hj).1 (heq ▸ hmem)
    · intro heq
      apply (hold j hj).2
      rw [← heq, remaining_eq]
      exact List.mem_map.mpr ⟨_, hmem, rfl⟩

/-- C9 (termination): when `findNearestNode` gives back a node of the copy it is
given, the loop makes exactly `n` passes for a graph with `n` nodes (it stops
after `n` passes and not before), the copy is empty on exit, every pass makes
the copy smaller, and the function returns. -/
theorem loop_terminates [Add R] [Sub R] [Mul R] [Zero R] (sqrt : R → R)
    (fnn : NearestNodeFn R) (GA : GraphAttributes R) (h : ReturnsNodeOfCopy fnn GA)
    (G : Graph) (C_start : configuration_t R) (T : List node) :
    (∀ fuel, whileLoop fnn GA fuel (initialState G C_start T)
        = if G.nodes.length ≤ fuel
          then some (stateAfter fnn G GA C_start T G.nodes.length) else none) ∧
    (stateAfter fnn G GA C_start T G.nodes.length).GC.nodes = [] ∧
    (∀ k, k < G.nodes.length →
        (stateAfter fnn G GA C_start T k).GC.nodes ≠ [] ∧
        (stateAfter fnn G GA C_start T (k + 1)).GC.nodes.length
          < (stateAfter fnn G GA C_start T k).GC.nodes.length) ∧
    (∀ fuel C_end, G.nodes.length ≤ fuel →
        (solveETSPNearestNeighbor sqrt fnn fuel G GA C_start C_end T).isSome = true) := by
  refine ⟨?_, remaining_nil fnn GA h G C_start T, ?_, ?_⟩
  · intro fuel
    rw [whileLoop_eq fnn GA h, init_nodes_length]
    rfl
  · intro k hk
    have h1 := remaining_length fnn GA h G C_start T k (Nat.le_of_lt hk)
    have h2 := remaining_length fnn GA h G C_start T (k + 1) hk
    refine ⟨?_, by omega⟩
    intro h0
    rw [h0] at h1
    simp at h1
    omega
  · intro fuel C_end hfuel
    rw [solve_eq sqrt fnn GA h fuel G C_start C_end T hfuel]
    rfl

/-- C10 (frame of the tour parameter): there is one visiting order, of length
`n`, such that for every initial content `T0` of the tour list and every end
configuration the list on return is `T0` followed by that order; the end
configuration enters the returned cost only. -/
theorem tour_frame [Add R] [Sub R] [Mul R] [Zero R] (sqrt : R → R)
    (fnn : NearestNodeFn R) (GA : GraphAttributes R) (h : ReturnsNodeOfCopy fnn GA)
    (G : Graph) (C_start : configuration_t R) :
    ∃ order : List node, order.length = G.nodes.length ∧
      ∀ (T0 : List node) (C_end : configuration_t R) (fuel : Nat),
        G.nodes.length ≤ fuel →
        ∃ cost : R,
          solveETSPNearestNeighbor sqrt fnn fuel G GA C_start C_end T0
            = some (cost, T0 ++ order) := by
  refine ⟨(List.range G.nodes.length).map
      (fun j => (GraphCopy.init G).vOrig (chosen fnn GA (initialState G C_start []) j)),
    by simp, ?_⟩
  intro T0 C_end fuel hfuel
  refine ⟨(stateAfter fnn G GA C_start T0 G.nodes.length).minCost
    + closingLeg sqrt (stateAfter fnn G GA C_start T0 G.nodes.length).C C_end, ?_⟩
  rw [solve_eq sqrt fnn GA h fuel G C_start C_end T0 hfuel, stateAfter_tour]
  simp only [chosen_congr fnn GA G C_start T0]

/-! ## The theorems at the sample data -/

theorem tour_complete_witness :
    ReturnsNodeOfCopy (scanNearest Int.sqrt) sampleGA ∧ sampleGraph.nodes.Nodup ∧
    sampleGraph.nodes.length ≤ 3 ∧
    ∃ (cost : ℤ) (tour : List node),
      solveETSPNearestNeighbor Int.sqrt (scanNearest Int.sqrt) 3 sampleGraph sampleGA
          sampleStart sampleStart [] = some (cost, tour) ∧
      tour.length = sampleGraph.nodes.length ∧ tour.Nodup ∧
      ∀ v, v ∈ tour ↔ v ∈ sampleGraph.nodes :=
  ⟨scanNearest_returnsNodeOfCopy Int.sqrt sampleGA, by decide, by decide,
    tour_complete Int.sqrt (scanNearest Int.sqrt) sampleGA
      (scanNearest_returnsNodeOfCopy Int.sqrt sampleGA) sampleGraph (by decide)
      sampleStart sampleStart 3 (by decide)⟩

theorem cost_decomposition_witness :
    ReturnsNodeOfCopy (scanNearest Int.sqrt) sampleGA ∧ sampleGraph.nodes.length ≤ 3 ∧
    (solveETSPNearestNeighbor Int.sqrt (scanNearest Int.sqrt) 3 sampleGraph sampleGA
        sampleStart sampleStart []).map Prod.fst
      = some
          (((List.range sampleGraph.nodes.length).map
              (returned (scanNearest Int.sqrt) sampleGA
                (initialState sampleGraph sampleStart []))).foldl (· + ·) 0
            + closingLeg Int.sqrt
                (stateAfter (scanNearest Int.sqrt) sampleGraph sampleGA sampleStart []
                  sampleGraph.nodes.length).C sampleStart) :=
  ⟨scanNearest_returnsNodeOfCopy Int.sqrt sampleGA, by decide,
    cost_decomposition Int.sqrt (scanNearest Int.sqrt) sampleGA
      (scanNearest_returnsNodeOfCopy Int.sqrt sampleGA) sampleGraph
      sampleStart sampleStart [] 3 (by decide)⟩

theorem greedy_selection_witness :
    ReturnsNearest (straightLine Int.sqrt sampleGA) (scanNearest Int.sqrt) sampleGA ∧
    sampleGraph.nodes.Nodup ∧ sampleGraph.nodes.length ≤ 3 ∧
    ∃ (c : ℤ) (tour : List node),
      solveETSPNearestNeighbor Int.sqrt (scanNearest Int.sqrt) 3 sampleGraph sampleGA
          sampleStart sampleStart [] = some (c, tour) ∧
      ∀ (i : Nat) (hi : i < tour.length),
        (stateAfter (scanNearest Int.sqrt) sampleGraph sampleGA sampleStart [] i).C
          = poseBefore sampleGA sampleStart tour i ∧
        (∀ w, w ∈ remaining (scanNearest Int.sqrt) sampleGraph sampleGA sampleStart [] i
          ↔ (w ∈ sampleGraph.nodes ∧ w ∉ tour.take i)) ∧
        (∀ w, w ∈ sampleGraph.nodes → w ∉ tour.take i →
          straightLine Int.sqrt sampleGA (poseBefore sampleGA sampleStart tour i) tour[i]
            ≤ straightLine Int.sqrt sampleGA (poseBefore sampleGA sampleStart tour i) w) :=
  ⟨scanNearest_returnsNearest Int.sqrt sampleGA, by decide, by decide,
    greedy_selection Int.sqrt (straightLine Int.sqrt sampleGA) (scanNearest Int.sqrt)
      sampleGA (scanNearest_returnsNearest Int.sqrt sampleGA) sampleGraph (by decide)
      sampleStart sampleStart 3 (by decide)⟩

theorem candidate_set_invariant_witness :
    ReturnsNodeOfCopy (scanNearest Int.sqrt) sampleGA ∧ sampleGraph.nodes.Nodup ∧
    2 ≤ sampleGraph.nodes.length ∧
    (stateAfter (scanNearest Int.sqrt) sampleGraph sampleGA sampleStart [] 2).GC.nodes.length
      = sampleGraph.nodes.length - 2 ∧
    List.Disjoint (stateAfter (scanNearest Int.sqrt) sampleGraph sampleGA sampleStart [] 2).tour
      (remaining (scanNearest Int.sqrt) sampleGraph sampleGA sampleStart [] 2) :=
  ⟨scanNearest_returnsNodeOfCopy Int.sqrt sampleGA, by decide, by decide,
    (candidate_set_invariant (scanNearest Int.sqrt) sampleGA
      (scanNearest_returnsNodeOfCopy Int.sqrt sampleGA) sampleGraph (by decide)
      sampleStart 2 (by decide)).2.2.2.1,
    (candidate_set_invariant (scanNearest Int.sqrt) sampleGA
      (scanNearest_returnsNodeOfCopy Int.sqrt sampleGA) sampleGraph (by decide)
      sampleStart 2 (by decide)).1⟩

theorem loop_terminates_witness :
    ReturnsNodeOfCopy (scanNearest Int.sqrt) sampleGA ∧
    (stateAfter (scanNearest Int.sqrt) sampleGraph sampleGA sampleStart []
      sampleGraph.nodes.length).GC.nodes = [] ∧
    (∀ fuel C_end, sampleGraph.nodes.length ≤ fuel →
      (solveETSPNearestNeighbor Int.sqrt (scanNearest Int.sqrt) fuel sampleGraph sampleGA
        sampleStart C_end []).isSome = true) :=
  ⟨scanNearest_returnsNodeOfCopy Int.sqrt sampleGA,
    (loop_terminates Int.sqrt (scanNearest Int.sqrt) sampleGA
      (scanNearest_returnsNodeOfCopy Int.sqrt sampleGA) sampleGraph sampleStart []).2.1,
    (loop_terminates Int.sqrt (scanNearest Int.sqrt) sampleGA
      (scanNearest_returnsNodeOfCopy Int.sqrt sampleGA) sampleGraph sampleStart []).2.2.2⟩

theorem tour_frame_witness :
    ReturnsNodeOfCopy (scanNearest Int.sqrt) sampleGA ∧
    ∃ order : List node, order.length = sampleGraph.nodes.length ∧
      ∀ (T0 : List node) (C_end : configuration_t ℤ) (fuel : Nat),
        sampleGraph.nodes.length ≤ fuel →
        ∃ cost : ℤ,
          solveETSPNearestNeighbor Int.sqrt (scanNearest Int.sqrt) fuel sampleGraph sampleGA
              sampleStart C_end T0
            = some (cost, T0 ++ order) :=
  ⟨scanNearest_returnsNodeOfCopy Int.sqrt sampleGA,
    tour_frame Int.sqrt (scanNearest Int.sqrt) sampleGA
      (scanNearest_returnsNodeOfCopy Int.sqrt sampleGA) sampleGraph sampleStart⟩

end Claims

end DPPL
